import Mathlib

/-!
Verification of the highlight-detection and clip-scheduling engine of the
stream-clipper repository.  The Python sources (`scripts/analyze_danmaku.py`,
`scripts/analyze_semantic.py`, `scripts/smart_clipper.py`,
`scripts/clip_and_burn.py`) are shallowly embedded below: Python floats are
modelled by exact rationals (`ℚ`), Python lists by `List`, dictionaries with a
fixed key set by structures, optional dictionary values by `Option`, and
Python's stable `sort`/`sorted` by insertion sort (which is stable for the
modelled key orders).  Fallible conversions (`float(...)`, `int(...)`, the SRT
timestamp regular expression) are modelled by `Option`-returning parsers.
-/

namespace StreamClipper

/-- Python `int(q)` on a float: truncation toward zero. -/
def int_trunc (q : ℚ) : ℤ := if 0 ≤ q then ⌊q⌋ else -⌊-q⌋

/-- First-occurrence deduplication, as Python's `list(dict.fromkeys(xs))`
(and the `seen`-set loops in the sources): keeps the first copy of each
element, in input order. -/
def pyDedupAux [DecidableEq α] (seen : List α) : List α → List α
  | [] => []
  | x :: xs => if x ∈ seen then pyDedupAux seen xs else x :: pyDedupAux (x :: seen) xs

/-- Python `list(dict.fromkeys(xs))`. -/
def pyDedup [DecidableEq α] (l : List α) : List α := pyDedupAux [] l

/-- Substring test, Python's `sub in s` on strings. -/
def strContains (s sub : String) : Bool := decide (sub.toList <:+: s.toList)

/-- Python `s.lower()`.  `Char.toLower` covers the ASCII range, which is the
only cased alphabet occurring in the repository's keyword tables. -/
def strLower (s : String) : String := String.mk (s.data.map Char.toLower)

namespace DanmakuAnalyzer

/-- One parsed danmaku record (`scripts/analyze_danmaku.py`,
`parse_danmaku_xml`): `{"time": float(p[0]), "text": d.text or "",
"mode": int(p[1]), "user": p[6]}`. -/
structure Danmaku where
  time : ℚ
  text : String
  mode : ℤ
  user : String
deriving DecidableEq, Repr

/-- One density window (`calculate_density`): `{"start": window_start,
"end": window_start + window_size, "count": ..., "unique_users": ...,
"texts": ...}`. -/
structure DensityWindow where
  start : ℤ
  «end» : ℤ
  count : ℕ
  unique_users : ℕ
  texts : List String
deriving DecidableEq, Repr

/-- The grouping key `int(d["time"] // window_size) * window_size` of
`calculate_density` (Python `//` on floats is `Int.floor` of the quotient). -/
def window_start (W : ℤ) (t : ℚ) : ℤ := ⌊t / (W : ℚ)⌋ * W

/-- The window built for an occupied bucket key `k`: the grouped events are
exactly the input events whose bucket key is `k`, visited in input order. -/
def densityWindowAt (W : ℤ) (l : List Danmaku) (k : ℤ) : DensityWindow :=
  let grp := l.filter (fun d => window_start W d.time = k)
  { start := k
    «end» := k + W
    count := grp.length
    unique_users := ((grp.map (fun d => d.user)).dedup).length
    texts := grp.map (fun d => d.text) }

/-- `sorted(windows.keys())`: the distinct bucket keys of the input, in
ascending order. -/
def occupiedStarts (W : ℤ) (l : List Danmaku) : List ℤ :=
  List.insertionSort (· ≤ ·) ((l.map (fun d => window_start W d.time)).dedup)

/-- Result record of `calculate_density`. -/
structure DensityResult where
  windows : List DensityWindow
  avg_density : ℚ
  peak_windows : List DensityWindow
deriving Repr

/-- `DanmakuAnalyzer.calculate_density` (`scripts/analyze_danmaku.py`):
group events by bucket key, list the occupied buckets in ascending key
order, compute the average count, and keep the windows whose count exceeds
1.5x the average, sorted descending by count, truncated to the top 10. -/
def calculate_density (W : ℤ) (danmaku_list : List Danmaku) : DensityResult :=
  if danmaku_list = [] then ⟨[], 0, []⟩
  else
    let window_list := (occupiedStarts W danmaku_list).map (densityWindowAt W danmaku_list)
    let avg_density : ℚ :=
      if window_list = [] then 0
      else ((window_list.map (fun w => (w.count : ℚ))).sum) / (window_list.length : ℚ)
    let peaks := window_list.filter (fun w => avg_density * (3/2) < (w.count : ℚ))
    let peaks := List.insertionSort (fun a b => b.count ≤ a.count) peaks
    ⟨window_list, avg_density, peaks.take 10⟩

/-- Input refuting the coverage part of the C2 claim: events at 0s and 70s. -/
def gapDanmaku : List Danmaku := [⟨0, "a", 1, "u1"⟩, ⟨70, "b", 1, "u2"⟩]

end DanmakuAnalyzer

namespace SemanticAnalyzer

/-- A parsed SRT entry (`scripts/analyze_semantic.py`, dataclass
`SubtitleEntry`). -/
structure SubtitleEntry where
  start : ℚ
  «end» : ℚ
  text : String
  index : ℤ
deriving DecidableEq, Repr, Inhabited

/-- `SemanticAnalyzer.EMOTION_KEYWORDS`, translated verbatim.  Note that
"哈哈" is listed under both `excited` and `funny`. -/
def EMOTION_KEYWORDS : List (String × List String) :=
  [("excited",
    ["哈哈", "笑死", "卧槽", "牛逼", "太强了", "神", "名场面", "经典", "震撼", "惊讶"]),
   ("funny", ["哈哈", "hhh", "笑", "草", "233", " funny", " hilarious"]),
   ("shocked", ["什么", "不可能", "真的假的", "惊", "吓", "???", "？"]),
   ("angry", ["气", "怒", "讨厌", "烦", "滚", "可恶"]),
   ("sad", ["哭", "泪", "难受", "心疼", " sad", "泪目"])]

/-- `SemanticAnalyzer.TOPIC_TRANSITIONS`, translated verbatim. -/
def TOPIC_TRANSITIONS : List String :=
  ["接下来", "然后", "那么", "好了", "接下来我们", "现在",
   "next", "so", "alright", "okay then", "moving on"]

/-- The emotion-word tally of `calculate_excitement`: for each of the 5
emotion categories, `sum(1 for kw in keywords if kw in text_lower)`,
summed over the categories. -/
def total_emotion_words (text : String) : ℕ :=
  let text_lower := strLower text
  (EMOTION_KEYWORDS.map
    (fun p => (p.2.filter (fun kw => strContains text_lower kw)).length)).sum

/-- The fixed threshold table of `calculate_excitement`, as a function of
the emotion-word tally. -/
def excitement_of_hits (total : ℕ) : ℕ :=
  if 5 ≤ total then 5
  else if 3 ≤ total then 4
  else if 2 ≤ total then 3
  else if 1 ≤ total then 2
  else 1

/-- `SemanticAnalyzer.calculate_excitement` (`scripts/analyze_semantic.py`):
score 1-5 from the emotion-word tally with thresholds 5/3/2/1. -/
def calculate_excitement (text : String) : ℕ :=
  excitement_of_hits (total_emotion_words text)

/-- The (category, keyword) pairs of the emotion table, flattened. -/
def emotion_pairs : List (String × String) :=
  EMOTION_KEYWORDS.flatMap (fun p => p.2.map (fun kw => (p.1, kw)))

/-- Marker test of `detect_topic_changes`: some transition phrase occurs in
the lower-cased entry text (the Python `for marker ... break` loop). -/
def hasTransitionMarker (text : String) : Bool :=
  TOPIC_TRANSITIONS.any (fun marker => strContains (strLower text) marker)

/-- Gap test of `detect_topic_changes`: `entries[i].start - entries[i-1].end
> 2.0`. -/
def hasLongGap (entries : List SubtitleEntry) (i : ℕ) : Bool :=
  decide (2 < (entries.getD i default).start - (entries.getD (i - 1) default).«end»)

/-- The change-point candidates contributed by index `i ≥ 1` of the loop in
`detect_topic_changes`: `i` once if a marker fires, and `i` once more if the
time-gap test fires. -/
def change_point_at (entries : List SubtitleEntry) (i : ℕ) : List ℕ :=
  (if hasTransitionMarker (entries.getD i default).text then [i] else []) ++
  (if hasLongGap entries i then [i] else [])

/-- The raw appended change-point list: `[0]` plus the contributions of
indices `1 .. len-1`. -/
def change_points_raw (entries : List SubtitleEntry) : List ℕ :=
  [0] ++ (List.range' 1 (entries.length - 1)).flatMap (change_point_at entries)

/-- `SemanticAnalyzer.detect_topic_changes`: `sorted(set(change_points))`. -/
def detect_topic_changes (entries : List SubtitleEntry) : List ℕ :=
  List.insertionSort (· ≤ ·) (change_points_raw entries).dedup

/-- Change-point predicate: index 0, or an index `i ≥ 1` where the marker or
the gap test fires. -/
def isCP (entries : List SubtitleEntry) (i : ℕ) : Bool :=
  decide (i = 0) ||
    (decide (1 ≤ i) &&
      (hasTransitionMarker (entries.getD i default).text || hasLongGap entries i))

/-- A semantic segment (`scripts/analyze_semantic.py`, dataclass `Segment`).
The `topic`, `key_quotes` and `keywords` fields of the Python dataclass are
omitted: no claim under verification depends on them. -/
structure Segment where
  start : ℚ
  «end» : ℚ
  text : String
  excitement_score : ℕ
deriving DecidableEq, Repr

/-- `" ".join(e.text for e in entries)`. -/
def joinTexts (entries : List SubtitleEntry) : String :=
  String.intercalate " " (entries.map (fun e => e.text))

/-- `segment_text[:200] + ("..." if len(segment_text) > 200 else "")`. -/
def truncate200 (s : String) : String :=
  if 200 < s.length then s.take 200 ++ "..." else s

/-- The segment built from one non-empty slice of entries, as in the loop
body of `SemanticAnalyzer.analyze`. -/
def mkSegment (e : SubtitleEntry) (rest : List SubtitleEntry) : Segment :=
  let segment_text := joinTexts (e :: rest)
  { start := e.start
    «end» := ((e :: rest).getLast (List.cons_ne_nil e rest)).«end»
    text := truncate200 segment_text
    excitement_score := calculate_excitement segment_text }

/-- Python `entries[a:b]` for `a ≤ b ≤ len`. -/
def pySlice (entries : List SubtitleEntry) (a b : ℕ) : List SubtitleEntry :=
  (entries.drop a).take (b - a)

/-- The per-change-point entry slices of the loop in
`SemanticAnalyzer.analyze`: slice `k` is `entries[cp[k] : cp[k+1]]`, the last
slice running to the end of the list. -/
def segment_slices (entries : List SubtitleEntry) : List ℕ → List (List SubtitleEntry)
  | [] => []
  | [c] => [entries.drop c]
  | c1 :: c2 :: rest => pySlice entries c1 c2 :: segment_slices entries (c2 :: rest)

/-- One loop iteration: empty slices are skipped (`continue`), non-empty
slices produce a `Segment`. -/
def segOfSlice (sl : List SubtitleEntry) : Option Segment :=
  match sl with
  | [] => none
  | e :: rest => some (mkSegment e rest)

/-- The segment list produced by `SemanticAnalyzer.analyze` on a parsed
subtitle list. -/
def analyze_segments (entries : List SubtitleEntry) : List Segment :=
  (segment_slices entries (detect_topic_changes entries)).filterMap segOfSlice

/-- The spec's own §8 example: two entries separated by a 38-second gap. -/
def gapEntries : List SubtitleEntry := [⟨0, 12, "a", 1⟩, ⟨50, 60, "b", 2⟩]

end SemanticAnalyzer

namespace SmartClipper

/-- A danmaku peak moment as written to the danmaku analysis JSON
(`scripts/analyze_danmaku.py`, `analyze`): keys `start`, `end`, `density`,
`unique_users`, `keywords`. -/
structure PeakMoment where
  start : ℚ
  «end» : ℚ
  density : ℕ
  unique_users : ℕ
  keywords : List String
deriving DecidableEq, Repr

/-- A semantic highlight as read by `smart_clipper.py`.  The fields are the
keys the clipper accesses: `start`, `end`, `excitement_score` (optional —
the JSON written by `analyze_semantic.py` does not carry this key, so
`dict.get` defaults apply), `key_quotes`, and `keywords` (an absent key
behaves as the empty list for the truthiness tests).  Keys never read by the
clipper (`reason`, `score`, `topic`) are omitted. -/
structure Highlight where
  start : ℚ
  «end» : ℚ
  excitement_score : Option ℕ
  key_quotes : List String
  keywords : List String
deriving DecidableEq, Repr

/-- A `clip_config` dictionary: `some` models a truthy (non-empty) dict,
with each key optional; `min_duration` defaults to 60 and `max_duration` to
300 at the use site. -/
structure ClipConfig where
  min_duration : Option ℚ
  max_duration : Option ℚ
deriving DecidableEq, Repr

/-- A streamer template: the keys `smart_clipper.py` reads (`name`, `memes`,
`clip_config`). -/
structure Template where
  name : Option String
  memes : List String
  clip_config : Option ClipConfig
deriving DecidableEq, Repr

/-- `SmartClipper.score_danmaku_density`: step table on
`moment.get("density", 0)`.  A candidate without a danmaku source passes
the empty dict, i.e. `none`, so the density read is 0 and the `else`
branch yields 20. -/
def score_danmaku_density (moment : Option PeakMoment) : ℕ :=
  let density := (moment.map (fun m => m.density)).getD 0
  if 150 ≤ density then 100
  else if 100 ≤ density then 80
  else if 80 ≤ density then 60
  else if 50 ≤ density then 40
  else 20

/-- `SmartClipper.score_semantic_quality`:
`highlight.get("excitement_score", 1) * 20`, plus 10 capped at 100 when
`highlight.get("key_quotes")` is truthy.  A candidate without a semantic
source passes the empty dict (`none`): excitement defaults to 1, giving
score 20. -/
def score_semantic_quality (highlight : Option Highlight) : ℕ :=
  let excitement := (highlight.bind (fun h => h.excitement_score)).getD 1
  let score := excitement * 20
  if (highlight.map (fun h => !h.key_quotes.isEmpty)).getD false then
    min 100 (score + 10)
  else score

/-- `SmartClipper.score_template_match`: base 50, +10 per meme whose
lower-cased text occurs in the lower-cased space-joined keyword list,
capped at 100; 50 when no template is configured. -/
def score_template_match (template : Option Template)
    (moment : Option PeakMoment) (highlight : Option Highlight) : ℕ :=
  match template with
  | none => 50
  | some tpl =>
    let keywords := ((moment.map (fun m => m.keywords)).getD []) ++
      ((highlight.map (fun h => h.keywords)).getD [])
    let text := strLower (String.intercalate " " keywords)
    let matched_memes := tpl.memes.filter (fun meme => strContains text (strLower meme))
    min 100 (50 + matched_memes.length * 10)

/-- `SmartClipper.score_duration_fit`.  With a falsy `clip_config`
(no template, or a template without a truthy `clip_config` dict) the
100/70/40 tier table applies; with a config, `[min,max]` scores 100, a
shortfall costs 2 points per second and an excess 0.5 points per second,
floored at 0.  The Python function annotates `-> int` but returns floats
in the penalty branches; the result is modelled in `ℚ`. -/
def score_duration_fit (clip_config : Option ClipConfig) (duration : ℚ) : ℚ :=
  match clip_config with
  | none =>
    if 60 ≤ duration ∧ duration ≤ 180 then 100
    else if (30 ≤ duration ∧ duration < 60) ∨ (180 < duration ∧ duration ≤ 300) then 70
    else 40
  | some cfg =>
    let min_duration := cfg.min_duration.getD 60
    let max_duration := cfg.max_duration.getD 300
    if min_duration ≤ duration ∧ duration ≤ max_duration then 100
    else if duration < min_duration then max 0 (100 - (min_duration - duration) * 2)
    else max 0 (100 - (duration - max_duration) * (1/2))

/-- `SmartClipper.generate_title`. -/
def generate_title (template : Option Template) (keywords : List String)
    (highlight : Option Highlight) : String :=
  let streamer := (template.bind (fun t => t.name)).getD "主播"
  let main_keyword := keywords.head?.getD "精彩时刻"
  let key_quotes := (highlight.map (fun h => h.key_quotes)).getD []
  let title : String :=
    match key_quotes with
    | quote :: _ =>
      if quote.length ≤ 20 then "[" ++ streamer ++ "] " ++ quote
      else "[" ++ streamer ++ "]" ++ main_keyword ++ " | 高能名场面"
    | [] => "[" ++ streamer ++ "]" ++ main_keyword ++ " | 精彩片段"
  if 80 < title.length then title.take 77 ++ "..." else title

/-- A merged candidate moment of `SmartClipper.merge_moments`: keys `start`,
`end`, `danmaku`, `semantic`, `overlap`. -/
structure Moment where
  start : ℚ
  «end» : ℚ
  danmaku : Option PeakMoment
  semantic : Option Highlight
  overlap : ℚ
deriving DecidableEq, Repr

/-- Pass 1 of `merge_moments`: every (peak, highlight) pair overlapping by
more than 10 s is merged, the merged span is clipped to 180 s (truncating
the end). -/
def merge_pass1 (danmaku_peaks : List PeakMoment)
    (semantic_highlights : List Highlight) : List Moment :=
  danmaku_peaks.flatMap (fun dm =>
    semantic_highlights.filterMap (fun hl =>
      let overlap := max 0 (min dm.«end» hl.«end» - max dm.start hl.start)
      if 10 < overlap then
        let merged_start := min dm.start hl.start
        let merged_end0 := max dm.«end» hl.«end»
        let merged_end :=
          if 180 < merged_end0 - merged_start then merged_start + 180 else merged_end0
        some ⟨merged_start, merged_end, some dm, some hl, overlap⟩
      else none))

/-- The danmaku-only padding loop of `merge_moments` (runs when fewer than 5
merged moments exist): each of the first 5 peaks not already represented is
appended, the list growing as the loop runs. -/
def addDanmakuOnly (merged : List Moment) : List PeakMoment → List Moment
  | [] => merged
  | dm :: rest =>
    if merged.any (fun m => m.danmaku = some dm) then addDanmakuOnly merged rest
    else addDanmakuOnly (merged ++ [⟨dm.start, dm.«end», some dm, none, 0⟩]) rest

/-- The semantic-only padding loop of `merge_moments`. -/
def addSemanticOnly (merged : List Moment) : List Highlight → List Moment
  | [] => merged
  | hl :: rest =>
    if merged.any (fun m => m.semantic = some hl) then addSemanticOnly merged rest
    else addSemanticOnly (merged ++ [⟨hl.start, hl.«end», none, some hl, 0⟩]) rest

/-- The `seen`-set deduplication of `merge_moments`, keyed on the
integer-truncated `(start, end)` pair. -/
def dedupMoments (seen : List (ℤ × ℤ)) : List Moment → List Moment
  | [] => []
  | m :: ms =>
    let key := (int_trunc m.start, int_trunc m.«end»)
    if key ∈ seen then dedupMoments seen ms
    else m :: dedupMoments (key :: seen) ms

/-- `SmartClipper.merge_moments`. -/
def merge_moments (danmaku_peaks : List PeakMoment)
    (semantic_highlights : List Highlight) : List Moment :=
  let merged := merge_pass1 danmaku_peaks semantic_highlights
  let merged :=
    if merged.length < 5 then
      addSemanticOnly (addDanmakuOnly merged (danmaku_peaks.take 5))
        (semantic_highlights.take 5)
    else merged
  let unique_merged := dedupMoments [] merged
  List.insertionSort (fun a b : Moment => a.start ≤ b.start) unique_merged

/-- The engine's terminal output (`ClipRecommendation` dataclass).  The
`score_breakdown` dict is flattened into the four factor fields. -/
structure ClipRecommendation where
  start : ℚ
  «end» : ℚ
  duration : ℚ
  title : String
  keywords : List String
  score : ℤ
  danmaku_score : ℕ
  semantic_score : ℕ
  template_score : ℕ
  duration_score : ℚ
  reason : String
deriving DecidableEq, Repr

/-- The scoring loop body of `SmartClipper.generate_recommendations` for one
merged moment.  The Python float weights 0.30 / 0.40 / 0.20 / 0.10 are
exactly representable and modelled as the corresponding rationals. -/
def build_recommendation (template : Option Template) (m : Moment) :
    ClipRecommendation :=
  let dm_data := m.danmaku
  let hl_data := m.semantic
  let duration := m.«end» - m.start
  let dm_score := score_danmaku_density dm_data
  let sem_score := score_semantic_quality hl_data
  let template_score := score_template_match template dm_data hl_data
  let duration_score := score_duration_fit (template.bind (fun t => t.clip_config)) duration
  let total_score := int_trunc ((dm_score : ℚ) * (0.30 : ℚ) + (sem_score : ℚ) * (0.40 : ℚ)
    + (template_score : ℚ) * (0.20 : ℚ) + duration_score * (0.10 : ℚ))
  let keywords := (pyDedup (((dm_data.map (fun d => d.keywords)).getD []) ++
    ((hl_data.map (fun h => h.keywords)).getD []))).take 5
  let reasons :=
    (if 80 < (dm_data.map (fun d => d.density)).getD 0 then ["弹幕密集"] else []) ++
    (if 4 ≤ (hl_data.bind (fun h => h.excitement_score)).getD 0 then ["情绪高涨"] else []) ++
    (if 70 < template_score then ["包含经典梗"] else [])
  let reason := if reasons.isEmpty then "精彩片段" else String.intercalate " + " reasons
  { start := m.start
    «end» := m.«end»
    duration := duration
    title := generate_title template keywords hl_data
    keywords := keywords
    score := total_score
    danmaku_score := dm_score
    semantic_score := sem_score
    template_score := template_score
    duration_score := duration_score
    reason := reason }

/-- The overlap test of the final filter loop: more than 30 s of overlap
with an already-kept recommendation. -/
def overlaps_more_30 (rec kept : ClipRecommendation) : Bool :=
  decide (30 < min rec.«end» kept.«end» - max rec.start kept.start)

/-- The greedy non-overlap filter of `generate_recommendations`: walk the
ranked list, keeping a candidate only if it overlaps no previously kept one
by more than 30 s. -/
def greedy_filter (kept : List ClipRecommendation) :
    List ClipRecommendation → List ClipRecommendation
  | [] => kept
  | r :: rs =>
    if kept.any (fun k => overlaps_more_30 r k) then greedy_filter kept rs
    else greedy_filter (kept ++ [r]) rs

/-- `SmartClipper.generate_recommendations` from the loaded analysis
results: merge, score, sort descending by total score (Python's sort is
stable; insertion sort with this order is stable too), greedily filter
overlaps, return the top `top_n`. -/
def generate_recommendations (template : Option Template)
    (danmaku_peaks : List PeakMoment) (semantic_highlights : List Highlight)
    (top_n : ℕ) : List ClipRecommendation :=
  let merged := merge_moments danmaku_peaks semantic_highlights
  let recommendations := merged.map (build_recommendation template)
  let recommendations :=
    List.insertionSort (fun a b : ClipRecommendation => b.score ≤ a.score) recommendations
  (greedy_filter [] recommendations).take top_n

instance : IsTotal ClipRecommendation (fun a b => b.score ≤ a.score) :=
  ⟨fun a b => le_total b.score a.score⟩

instance : IsTrans ClipRecommendation (fun a b => b.score ≤ a.score) :=
  ⟨fun _ _ _ h1 h2 => le_trans h2 h1⟩

end SmartClipper

namespace ClipAndBurn

/-- `ClipAndBurn._find_available_track`'s scan (`scripts/clip_and_burn.py`):
the first lane, in index order, whose recorded end time is ≤ the current
time. -/
def find_first_free (tracks : List ℚ) (current_time : ℚ) : Option ℕ :=
  match tracks with
  | [] => none
  | end_time :: rest =>
    if end_time ≤ current_time then some 0
    else (find_first_free rest current_time).map (fun i => i + 1)

/-- `ClipAndBurn._find_available_track`: first-fit scan; when every lane is
busy, `random.randint(0, len(tracks) - 1)` picks a lane.  The random draw is
modelled by the oracle value `r`; `randint`'s contract keeps the draw inside
`0 .. len(tracks) - 1`, which theorems state as a hypothesis on `r`. -/
def find_available_track (tracks : List ℚ) (current_time : ℚ) (r : ℕ) : ℕ :=
  (find_first_free tracks current_time).getD r

/-- One SCROLL comment reaching the lane allocator in `_xml_to_ass`: its
timestamp, paired with the oracle value the random generator would produce
were all lanes busy. -/
structure ScrollComment where
  t : ℚ
  r : ℕ
deriving DecidableEq, Repr

/-- The record of one allocation: the comment's timestamp, the lane it was
given, and whether the overflow path (all lanes busy) made the choice. -/
structure Assignment where
  t : ℚ
  lane : ℕ
  overflow : Bool
deriving DecidableEq, Repr

/-- One `_xml_to_ass` loop iteration for a SCROLL comment: pick a lane, set
`tracks[track_idx] = time_sec + duration` with `duration = 8.0`, and emit
the dialogue event (the `track_idx >= 0` guard always holds). -/
def allocStep (tracks : List ℚ) (c : ScrollComment) : List ℚ × Assignment :=
  let free := find_first_free tracks c.t
  let track_idx := free.getD c.r
  (tracks.set track_idx (c.t + 8), ⟨c.t, track_idx, free.isNone⟩)

/-- The allocator run over a SCROLL comment sequence; `_xml_to_ass` starts
it from `tracks = [0] * 15`. -/
def allocate (tracks : List ℚ) : List ScrollComment → List Assignment
  | [] => []
  | c :: cs => (allocStep tracks c).2 :: allocate (allocStep tracks c).1 cs

end ClipAndBurn

/-- `cs.foldl`-style digit-string value, used by the numeric-conversion
models below. -/
def digitsToNat (cs : List Char) : ℕ :=
  cs.foldl (fun a c => a * 10 + (c.toNat - 48)) 0

/-- Python `int(s)` on the sign-and-digits fragment (the only shapes the
repository's inputs exercise); other shapes raise `ValueError`, i.e.
`none`. -/
def pyInt (s : String) : Option ℤ :=
  match s.data with
  | [] => none
  | '-' :: rest =>
    if rest ≠ [] ∧ rest.all Char.isDigit then some (-(digitsToNat rest : ℤ)) else none
  | cs =>
    if cs.all Char.isDigit then some (digitsToNat cs : ℤ) else none

/-- The unsigned decimal-literal fragment of Python `float(s)`:
`digits`, `digits.`, `.digits` or `digits.digits`. -/
def pyFloatCore (cs : List Char) : Option ℚ :=
  let intPart := cs.takeWhile Char.isDigit
  let rest := cs.dropWhile Char.isDigit
  match rest with
  | [] => if intPart.isEmpty then none else some (digitsToNat intPart : ℚ)
  | '.' :: frac =>
    if frac.all Char.isDigit ∧ (¬intPart.isEmpty ∨ ¬frac.isEmpty) then
      some ((digitsToNat intPart : ℚ) + (digitsToNat frac : ℚ) / (10 : ℚ) ^ frac.length)
    else none
  | _ => none

/-- Python `float(s)` on the (optionally negated) decimal-literal fragment;
exponent, infinity and NaN forms do not occur in the repository's data and
are out of the model: any unsupported shape is `none` (`ValueError`). -/
def pyFloat (s : String) : Option ℚ :=
  match s.data with
  | '-' :: rest => (pyFloatCore rest).map (fun q => -q)
  | cs => pyFloatCore cs

namespace DanmakuAnalyzer

/-- One `<d>` element of the danmaku XML as seen by `parse_danmaku_xml`:
the comma-split `p` attribute and the optional element text. -/
structure RawDanmaku where
  p : List String
  text : Option String
deriving DecidableEq, Repr

/-- The field conversions of one record: `float(p[0])` and `int(p[1])` can
raise (`none`); `d.text or ""` and `p[6]` cannot. -/
def parse_danmaku_fields (r : RawDanmaku) : Option Danmaku :=
  match pyFloat (r.p.getD 0 ""), pyInt (r.p.getD 1 "") with
  | some time_sec, some mode => some ⟨time_sec, r.text.getD "", mode, r.p.getD 6 ""⟩
  | _, _ => none

/-- The record loop of `parse_danmaku_xml`: records with fewer than 8
fields are skipped by the `len(p) >= 8` guard; a field conversion that
raises aborts the loop — the exception is caught by the function-level
`except`, which returns the records accumulated so far. -/
def parse_danmaku_loop : List RawDanmaku → List Danmaku
  | [] => []
  | r :: rs =>
    if 8 ≤ r.p.length then
      match parse_danmaku_fields r with
      | some d => d :: parse_danmaku_loop rs
      | none => []
    else parse_danmaku_loop rs

/-- `DanmakuAnalyzer.parse_danmaku_xml`: the record loop followed by the
stable sort on `time`. -/
def parse_danmaku_xml (records : List RawDanmaku) : List Danmaku :=
  List.insertionSort (fun a b : Danmaku => a.time ≤ b.time) (parse_danmaku_loop records)

end DanmakuAnalyzer

namespace SemanticAnalyzer

/-- The `\d{2}:\d{2}:\d{2},\d{3}` timestamp prefix of the SRT time-line
regular expression, combined with `_time_to_seconds`: returns the parsed
seconds and the remaining characters. -/
def matchTimestampChars : List Char → Option (ℚ × List Char)
  | h1 :: h2 :: ':' :: m1 :: m2 :: ':' :: s1 :: s2 :: ',' :: x1 :: x2 :: x3 :: rest =>
    if h1.isDigit ∧ h2.isDigit ∧ m1.isDigit ∧ m2.isDigit ∧
        s1.isDigit ∧ s2.isDigit ∧ x1.isDigit ∧ x2.isDigit ∧ x3.isDigit then
      some ((digitsToNat [h1, h2] : ℚ) * 3600 + (digitsToNat [m1, m2] : ℚ) * 60 +
        (digitsToNat [s1, s2] : ℚ) + (digitsToNat [x1, x2, x3] : ℚ) / 1000, rest)
    else none
  | _ => none

/-- The full time-line match
`re.match(r"(\d{2}:...) --> (\d{2}:...)", time_line)`: anchored at the
start, trailing characters permitted. -/
def matchTimeLine (line : String) : Option (ℚ × ℚ) :=
  match matchTimestampChars line.data with
  | none => none
  | some (st, rest) =>
    match rest with
    | ' ' :: '-' :: '-' :: '>' :: ' ' :: rest2 =>
      match matchTimestampChars rest2 with
      | none => none
      | some (en, _) => some (st, en)
    | _ => none

/-- One block of `parse_srt`: skipped (`continue`) when it has fewer than 3
lines, a non-integer index line, or an unmatched time line; otherwise the
remaining lines are joined with spaces into the text. -/
def parse_block (lines : List String) : Option SubtitleEntry :=
  if lines.length < 3 then none
  else
    match pyInt (lines.getD 0 "") with
    | none => none
    | some index =>
      match matchTimeLine (lines.getD 1 "") with
      | none => none
      | some (st, en) =>
        some ⟨st, en, String.intercalate " " (lines.drop 2), index⟩

/-- `SemanticAnalyzer.parse_srt` over the blank-line-separated blocks of
the file (the `re.split` step is modelled by taking the block list, each
block its list of lines). -/
def parse_srt (blocks : List (List String)) : List SubtitleEntry :=
  blocks.filterMap parse_block

end SemanticAnalyzer

/-- A record whose timestamp field fails `float(...)`. -/
def badRecord : DanmakuAnalyzer.RawDanmaku :=
  ⟨["x", "1", "0", "0", "0", "0", "u1", "0"], some "hi"⟩

/-- A fully well-formed record. -/
def goodRecord : DanmakuAnalyzer.RawDanmaku :=
  ⟨["1.5", "1", "0", "0", "0", "0", "u2", "0"], some "ok"⟩

end StreamClipper

namespace StreamClipper

namespace DanmakuAnalyzer

lemma window_start_eq_iff {W : ℤ} (hW : 0 < W) (t : ℚ) (m : ℤ) :
    window_start W t = m * W ↔ ((m * W : ℤ) : ℚ) ≤ t ∧ t < ((m * W + W : ℤ) : ℚ) := by
  have hW0 : (W : ℚ) ≠ 0 := by exact_mod_cast hW.ne'
  have hWq : (0 : ℚ) < (W : ℚ) := by exact_mod_cast hW
  unfold window_start
  constructor
  · rintro h
    have hm : ⌊t / (W : ℚ)⌋ = m := mul_right_cancel₀ hW.ne' (by exact_mod_cast h)
    have h1 : (m : ℚ) ≤ t / (W : ℚ) ∧ t / (W : ℚ) < m + 1 := by
      rw [← hm]; exact ⟨Int.floor_le _, Int.lt_floor_add_one _⟩
    constructor
    · push_cast
      calc ((m : ℚ) * W) ≤ (t / W) * W := by
            exact mul_le_mul_of_nonneg_right h1.1 hWq.le
        _ = t := div_mul_cancel₀ t hW0
    · push_cast
      calc t = (t / W) * W := (div_mul_cancel₀ t hW0).symm
        _ < ((m : ℚ) + 1) * W := by exact mul_lt_mul_of_pos_right h1.2 hWq
        _ = (m : ℚ) * W + W := by ring
  · rintro ⟨h1, h2⟩
    have hm : ⌊t / (W : ℚ)⌋ = m := by
      rw [Int.floor_eq_iff]
      constructor
      · rw [le_div_iff₀ hWq]
        exact_mod_cast h1
      · rw [div_lt_iff₀ hWq]
        push_cast at h2 ⊢
        linarith
    rw [hm]

lemma mem_occupiedStarts {W : ℤ} {l : List Danmaku} {k : ℤ} :
    k ∈ occupiedStarts W l ↔ ∃ d ∈ l, window_start W d.time = k := by
  unfold occupiedStarts
  rw [(List.perm_insertionSort _ _).mem_iff, List.mem_dedup, List.mem_map]

lemma sorted_occupiedStarts (W : ℤ) (l : List Danmaku) :
    List.Sorted (· < ·) (occupiedStarts W l) := by
  have hs : List.Sorted (· ≤ ·) (occupiedStarts W l) :=
    List.sorted_insertionSort _ _
  have hnd : (occupiedStarts W l).Nodup :=
    (List.perm_insertionSort _ _).nodup_iff.mpr (List.nodup_dedup _)
  exact hs.lt_of_le hnd

/-- **C2** (amended).  For a positive window size and a non-empty comment
list, `calculate_density` produces one window per *occupied* bucket: every
window's `count` equals the number of input events with timestamp in
`[start, end)`; the window starts are exactly the bucket keys
`window_start` of the input events, listed in strictly ascending order.
(Buckets containing no event produce no window, so the windows need not
cover every multiple of the window size up to the maximum timestamp.) -/
theorem C2_density_window_counts (W : ℤ) (l : List Danmaku)
    (hW : 0 < W) (hl : l ≠ []) :
    (∀ w ∈ (calculate_density W l).windows,
        w.count =
          (l.filter (fun d =>
            decide ((w.start : ℚ) ≤ d.time ∧ d.time < (w.«end» : ℚ)))).length) ∧
    ((calculate_density W l).windows.map (fun w => w.start) = occupiedStarts W l) ∧
    (∀ k : ℤ, k ∈ (calculate_density W l).windows.map (fun w => w.start) ↔
        ∃ d ∈ l, window_start W d.time = k) ∧
    List.Sorted (· < ·) ((calculate_density W l).windows.map (fun w => w.start)) := by
  have hwnd : (calculate_density W l).windows =
      (occupiedStarts W l).map (densityWindowAt W l) := by
    unfold calculate_density
    rw [if_neg hl]
  have hmap : (calculate_density W l).windows.map (fun w => w.start) =
      occupiedStarts W l := by
    rw [hwnd, List.map_map]
    have : (fun w : DensityWindow => w.start) ∘ densityWindowAt W l = id := by
      funext k; rfl
    rw [this, List.map_id]
  refine ⟨?_, hmap, ?_, ?_⟩
  · intro w hw
    rw [hwnd, List.mem_map] at hw
    obtain ⟨k, hk, rfl⟩ := hw
    obtain ⟨d0, _, hd0⟩ := mem_occupiedStarts.mp hk
    -- the occupied key is a multiple of W
    obtain ⟨m, rfl⟩ : ∃ m : ℤ, k = m * W := ⟨⌊d0.time / (W : ℚ)⌋, hd0.symm⟩
    show (l.filter _).length = (l.filter _).length
    congr 1
    apply List.filter_congr
    intro d _
    rw [decide_eq_decide]
    have : (densityWindowAt W l (m * W)).start = m * W := rfl
    have h2 : (densityWindowAt W l (m * W)).«end» = m * W + W := rfl
    rw [this, h2]
    exact window_start_eq_iff hW d.time m
  · intro k; rw [hmap]; exact mem_occupiedStarts
  · rw [hmap]; exact sorted_occupiedStarts W l

/-- Witness for `C2_density_window_counts` at a concrete input. -/
theorem C2_density_window_counts_witness :
    ((0 : ℤ) < 30 ∧ ([⟨0, "a", 1, "u1"⟩] : List Danmaku) ≠ []) ∧
    (∀ w ∈ (calculate_density 30 [⟨0, "a", 1, "u1"⟩]).windows,
        w.count =
          (([⟨0, "a", 1, "u1"⟩] : List Danmaku).filter (fun d =>
            decide ((w.start : ℚ) ≤ d.time ∧ d.time < (w.«end» : ℚ)))).length) :=
  ⟨⟨by decide, by decide⟩,
    (C2_density_window_counts 30 [⟨0, "a", 1, "u1"⟩] (by decide) (by decide)).1⟩

/-- **C2 counterexample.**  With window size 30 and events at 0s and 70s,
`calculate_density` emits windows starting at 0 and 60 only: the bucket at
30 — a multiple of the window size lying below the maximum timestamp 70 —
has no window, so the windows are not contiguous multiples of the window
size covering `[0, maxTimestamp]`. -/
theorem C2_density_coverage_counterexample :
    ((calculate_density 30 gapDanmaku).windows.map (fun w => w.start) = [0, 60]) ∧
    (30 : ℤ) % 30 = 0 ∧ (30 : ℚ) ≤ 70 ∧
    ¬ ∃ w ∈ (calculate_density 30 gapDanmaku).windows, w.start = 30 := by
  have h0 : window_start 30 (0 : ℚ) = 0 := by norm_num [window_start]
  have h70 : window_start 30 (70 : ℚ) = 60 := by norm_num [window_start]
  have hks : occupiedStarts 30 gapDanmaku = [0, 60] := by
    show List.insertionSort _ ((gapDanmaku.map fun d => window_start 30 d.time).dedup) = _
    have hm : gapDanmaku.map (fun d => window_start 30 d.time) = [0, 60] := by
      show [window_start 30 (0 : ℚ), window_start 30 (70 : ℚ)] = [0, 60]
      rw [h0, h70]
    rw [hm]
    decide
  have hwin : (calculate_density 30 gapDanmaku).windows =
      (occupiedStarts 30 gapDanmaku).map (densityWindowAt 30 gapDanmaku) := by
    unfold calculate_density
    rw [if_neg (by decide)]
  have hmap : (calculate_density 30 gapDanmaku).windows.map (fun w => w.start) = [0, 60] := by
    rw [hwin, List.map_map]
    have hid : (fun w : DensityWindow => w.start) ∘ densityWindowAt 30 gapDanmaku = id := by
      funext k; rfl
    rw [hid, List.map_id, hks]
  refine ⟨hmap, by decide, by norm_num, ?_⟩
  rintro ⟨w, hw, hws⟩
  have : w.start ∈ (calculate_density 30 gapDanmaku).windows.map (fun w => w.start) :=
    List.mem_map.mpr ⟨w, hw, rfl⟩
  rw [hmap, hws] at this
  exact absurd this (by decide)

end DanmakuAnalyzer

namespace SemanticAnalyzer

lemma countP_bind {α β : Type} (l : List α) (f : α → List β) (p : β → Bool) :
    (l.flatMap f).countP p = (l.map (fun a => (f a).countP p)).sum := by
  induction l with
  | nil => simp
  | cons a l ih => simp [List.countP_append, ih]

/-- **C6.**  `calculate_excitement` is exactly the fixed threshold table
applied to the emotion-keyword tally, and the table is monotone
non-decreasing in the tally. -/
theorem C6_excitement_table :
    (∀ text : String,
        calculate_excitement text = excitement_of_hits (total_emotion_words text)) ∧
    (∀ m n : ℕ, m ≤ n → excitement_of_hits m ≤ excitement_of_hits n) := by
  refine ⟨fun _ => rfl, fun m n h => ?_⟩
  unfold excitement_of_hits
  split_ifs <;> omega

/-- Witness for `C6_excitement_table` at concrete inputs. -/
theorem C6_excitement_table_witness :
    calculate_excitement "笑死了" = excitement_of_hits (total_emotion_words "笑死了") ∧
    (1 ≤ 4 ∧ excitement_of_hits 1 ≤ excitement_of_hits 4) :=
  ⟨C6_excitement_table.1 "笑死了", by decide, C6_excitement_table.2 1 4 (by decide)⟩

/-- **C10.**  The tally counts (category, keyword) pairs whose keyword occurs
in the lower-cased text: repeated occurrences of one keyword count once,
while "哈哈" — listed under both `excited` and `funny` — contributes one hit
per category, so a text containing only "哈哈" has tally 2 and excitement
score 3 (and repeating "哈哈" does not change the tally). -/
theorem C10_emotion_hit_count :
    (∀ text : String,
        total_emotion_words text =
          emotion_pairs.countP (fun pr => strContains (strLower text) pr.2)) ∧
    ("哈哈" ∈ (EMOTION_KEYWORDS.getD 0 ("", [])).2 ∧
      "哈哈" ∈ (EMOTION_KEYWORDS.getD 1 ("", [])).2) ∧
    total_emotion_words "哈哈" = 2 ∧ calculate_excitement "哈哈" = 3 ∧
    total_emotion_words "哈哈哈哈" = 2 ∧ calculate_excitement "哈哈哈哈" = 3 := by
  refine ⟨fun text => ?_, by decide, by decide, by decide, by decide, by decide⟩
  unfold emotion_pairs total_emotion_words
  rw [countP_bind]
  refine congrArg List.sum (List.map_congr_left fun p _ => ?_)
  rw [List.countP_map, List.countP_eq_length_filter]
  rfl

lemma mem_change_point_at {entries : List SubtitleEntry} {i x : ℕ} :
    x ∈ change_point_at entries i ↔
      x = i ∧ (hasTransitionMarker (entries.getD i default).text ∨
        hasLongGap entries i) := by
  unfold change_point_at
  rcases h1 : hasTransitionMarker (entries.getD i default).text <;>
    rcases h2 : hasLongGap entries i <;> simp [h1, h2]

lemma mem_change_points_raw {entries : List SubtitleEntry} {x : ℕ} :
    x ∈ change_points_raw entries ↔
      x = 0 ∨ (1 ≤ x ∧ x < entries.length ∧
        (hasTransitionMarker (entries.getD x default).text ∨ hasLongGap entries x)) := by
  unfold change_points_raw
  rw [List.mem_append, List.mem_flatMap]
  constructor
  · rintro (h0 | ⟨i, hi, hx⟩)
    · left; simpa using h0
    · right
      rw [List.mem_range'_1] at hi
      obtain ⟨rfl, hm⟩ := mem_change_point_at.mp hx
      exact ⟨hi.1, by omega, hm⟩
  · rintro (rfl | ⟨h1, h2, hm⟩)
    · left; simp
    · right
      exact ⟨x, List.mem_range'_1.mpr ⟨h1, by omega⟩, mem_change_point_at.mpr ⟨rfl, hm⟩⟩

/-- `detect_topic_changes` equals the ascending filter of the change-point
predicate over all indices (for non-empty input). -/
lemma detect_topic_changes_eq_filter (entries : List SubtitleEntry)
    (h : entries ≠ []) :
    detect_topic_changes entries = (List.range entries.length).filter (isCP entries) := by
  have hlen : 0 < entries.length := List.length_pos.mpr h
  apply List.eq_of_perm_of_sorted (r := (· ≤ · : ℕ → ℕ → Prop))
  · rw [List.perm_ext_iff_of_nodup]
    · intro x
      unfold detect_topic_changes
      rw [(List.perm_insertionSort _ _).mem_iff, List.mem_dedup, mem_change_points_raw,
        List.mem_filter, List.mem_range]
      unfold isCP
      constructor
      · rintro (rfl | ⟨h1, h2, hm⟩)
        · simpa using hlen
        · refine ⟨h2, ?_⟩
          simp only [Bool.or_eq_true, Bool.and_eq_true, decide_eq_true_eq]
          right; exact ⟨h1, by simpa using hm⟩
      · rintro ⟨hx, hp⟩
        simp only [Bool.or_eq_true, Bool.and_eq_true, decide_eq_true_eq] at hp
        rcases hp with h0 | ⟨h1, hm⟩
        · exact Or.inl h0
        · exact Or.inr ⟨h1, hx, by simpa using hm⟩
    · exact (List.perm_insertionSort _ _).nodup_iff.mpr (List.nodup_dedup _)
    · exact (List.nodup_range _).filter _
  · exact List.sorted_insertionSort _ _
  · exact List.Pairwise.sublist (List.filter_sublist _)
      ((List.pairwise_lt_range _).imp le_of_lt)

lemma pySlice_ne_nil {entries : List SubtitleEntry} {a b : ℕ}
    (hab : a < b) (hb : b ≤ entries.length) : pySlice entries a b ≠ [] := by
  unfold pySlice
  rw [← List.length_pos, List.length_take, List.length_drop]
  omega

lemma pySlice_head? {entries : List SubtitleEntry} {a b : ℕ}
    (hab : a < b) : (pySlice entries a b).head? = entries[a]? := by
  unfold pySlice
  rw [List.head?_eq_getElem?, List.getElem?_take, if_pos (by omega),
    List.getElem?_drop]
  simp

lemma pySlice_getLast? {entries : List SubtitleEntry} {a b : ℕ}
    (hab : a < b) (hb : b ≤ entries.length) :
    (pySlice entries a b).getLast? = entries[b - 1]? := by
  unfold pySlice
  rw [List.getLast?_eq_getElem?]
  have hlen : ((entries.drop a).take (b - a)).length = b - a := by
    rw [List.length_take, List.length_drop]; omega
  rw [hlen, List.getElem?_take, if_pos (by omega), List.getElem?_drop]
  congr 1
  omega

lemma drop_head? (entries : List SubtitleEntry) (a : ℕ) :
    (entries.drop a).head? = entries[a]? := by
  rw [List.head?_eq_getElem?, List.getElem?_drop]
  simp

lemma drop_getLast? {entries : List SubtitleEntry} {a : ℕ} (ha : a < entries.length) :
    (entries.drop a).getLast? = entries[entries.length - 1]? := by
  rw [List.getLast?_eq_getElem?, List.length_drop, List.getElem?_drop]
  congr 1
  omega

lemma drop_ne_nil {entries : List SubtitleEntry} {a : ℕ} (ha : a < entries.length) :
    entries.drop a ≠ [] := by
  rw [← List.length_pos, List.length_drop]
  omega

lemma segOfSlice_spec {sl : List SubtitleEntry} (h : sl ≠ []) :
    ∃ s, segOfSlice sl = some s ∧
      some s.start = sl.head?.map SubtitleEntry.start ∧
      some s.«end» = sl.getLast?.map SubtitleEntry.«end» := by
  match sl, h with
  | e :: rest, _ =>
    refine ⟨mkSegment e rest, rfl, rfl, ?_⟩
    rw [List.getLast?_eq_getLast _ (List.cons_ne_nil e rest)]
    rfl

/-- In a transcript whose entries are well-formed and pairwise adjacent-ordered,
any earlier entry ends no later than any later entry starts. -/
lemma entry_le_of_lt (entries : List SubtitleEntry)
    (hadj : List.Chain' (fun a b : SubtitleEntry => a.«end» ≤ b.start) entries)
    (hwf : ∀ e ∈ entries, e.start ≤ e.«end») :
    ∀ j, ∀ hj : j < entries.length, ∀ i, ∀ hij : i < j,
      (entries.get ⟨i, lt_trans hij hj⟩).«end» ≤ (entries.get ⟨j, hj⟩).start := by
  intro j
  induction j with
  | zero => intro _ i hij; omega
  | succ j ih =>
    intro hj i hij
    have hchain : (entries.get ⟨j, by omega⟩).«end» ≤ (entries.get ⟨j + 1, hj⟩).start := by
      rw [List.chain'_iff_get] at hadj
      exact hadj j (by omega)
    rcases Nat.lt_or_ge i j with h | h
    · have h1 := ih (by omega) i h
      have h2 : (entries.get ⟨j, by omega⟩).start ≤ (entries.get ⟨j, by omega⟩).«end» :=
        hwf _ (List.get_mem _ _ _)
      exact le_trans h1 (le_trans h2 hchain)
    · have hij' : i = j := by omega
      subst hij'
      exact hchain

/-- Main induction for the segmentation: for any strictly increasing,
in-bounds change-point list the produced segments are one per change point,
each starting at its change-point entry, pairwise non-overlapping, the first
starting at the first listed change point's entry and the last ending at the
final transcript entry. -/
lemma segments_spec (entries : List SubtitleEntry)
    (hadj : List.Chain' (fun a b : SubtitleEntry => a.«end» ≤ b.start) entries)
    (hwf : ∀ e ∈ entries, e.start ≤ e.«end») :
    ∀ cps : List ℕ, List.Pairwise (· < ·) cps → (∀ c ∈ cps, c < entries.length) →
      ((segment_slices entries cps).filterMap segOfSlice).length = cps.length ∧
      (∀ b ∈ (segment_slices entries cps).filterMap segOfSlice,
          ∃ cb ∈ cps, some b.start = (entries[cb]?).map SubtitleEntry.start) ∧
      (cps ≠ [] →
        ((segment_slices entries cps).filterMap segOfSlice).getLast?.map Segment.«end»
          = (entries[entries.length - 1]?).map SubtitleEntry.«end») ∧
      (∀ c rest, cps = c :: rest →
        ((segment_slices entries cps).filterMap segOfSlice).head?.map Segment.start
          = (entries[c]?).map SubtitleEntry.start) ∧
      List.Pairwise (fun a b : Segment => a.«end» ≤ b.start)
        ((segment_slices entries cps).filterMap segOfSlice) := by
  intro cps
  induction cps with
  | nil =>
    intro _ _
    refine ⟨rfl, by simp [segment_slices], by simp, ?_, by simp [segment_slices]⟩
    intro c rest hcr
    exact absurd hcr (by simp)
  | cons c1 tail ih =>
    intro hpw hbd
    cases tail with
    | nil =>
      have hc1 : c1 < entries.length := hbd c1 (by simp)
      obtain ⟨s, hs, hstart, hend⟩ := segOfSlice_spec (drop_ne_nil hc1)
      have hsegs : (segment_slices entries [c1]).filterMap segOfSlice = [s] := by
        show List.filterMap segOfSlice [entries.drop c1] = [s]
        rw [List.filterMap_cons, hs]
        rfl
      rw [hsegs]
      refine ⟨rfl, ?_, ?_, ?_, List.pairwise_singleton _ _⟩
      · intro b hb
        rw [List.mem_singleton] at hb
        subst hb
        exact ⟨c1, by simp, by rw [hstart, drop_head?]⟩
      · intro _
        show some s.«end» = _
        rw [hend, drop_getLast? hc1]
      · intro c rest hcr
        obtain ⟨rfl, _⟩ : c1 = c ∧ ([] : List ℕ) = rest := by
          constructor <;> [exact (List.cons.injEq _ _ _ _ ▸ hcr).1;
            exact (List.cons.injEq _ _ _ _ ▸ hcr).2]
        show some s.start = _
        rw [hstart, drop_head?]
    | cons c2 rest =>
      have hc12 : c1 < c2 := List.rel_of_pairwise_cons hpw (by simp)
      have hpw' : List.Pairwise (· < ·) (c2 :: rest) := hpw.of_cons
      have hbd' : ∀ c ∈ c2 :: rest, c < entries.length := fun c hc => hbd c (by simp [hc])
      have hc2 : c2 < entries.length := hbd' c2 (by simp)
      obtain ⟨IH1, IH2, IH3, IH4, IH5⟩ := ih hpw' hbd'
      obtain ⟨s1, hs1, hstart1, hend1⟩ :=
        segOfSlice_spec (pySlice_ne_nil hc12 (le_of_lt hc2))
      have hsegs : (segment_slices entries (c1 :: c2 :: rest)).filterMap segOfSlice =
          s1 :: (segment_slices entries (c2 :: rest)).filterMap segOfSlice := by
        show List.filterMap segOfSlice (pySlice entries c1 c2 :: _) = _
        rw [List.filterMap_cons, hs1]
      have hne' : (segment_slices entries (c2 :: rest)).filterMap segOfSlice ≠ [] := by
        intro hnil
        rw [hnil] at IH1
        simp at IH1
      -- the later segments all start at entries of later change points
      have hlater : ∀ b ∈ (segment_slices entries (c2 :: rest)).filterMap segOfSlice,
          s1.«end» ≤ b.start := by
        intro b hb
        obtain ⟨cb, hcb, hbstart⟩ := IH2 b hb
        have hcb2 : c2 ≤ cb := by
          rcases List.mem_cons.mp hcb with rfl | hcb'
          · exact le_refl _
          · exact le_of_lt (List.rel_of_pairwise_cons hpw' hcb')
        have hcblen : cb < entries.length := hbd' cb hcb
        have hs1end : s1.«end» = (entries.get ⟨c2 - 1, by omega⟩).«end» := by
          have := hend1
          rw [pySlice_getLast? hc12 (le_of_lt hc2),
            List.getElem?_eq_getElem (show c2 - 1 < entries.length by omega)] at this
          simpa using this
        have hbst : b.start = (entries.get ⟨cb, hcblen⟩).start := by
          rw [List.getElem?_eq_getElem hcblen] at hbstart
          simpa using hbstart
        rw [hs1end, hbst]
        exact entry_le_of_lt entries hadj hwf cb hcblen (c2 - 1) (by omega)
      rw [hsegs]
      refine ⟨by simpa using IH1, ?_, ?_, ?_, ?_⟩
      · intro b hb
        rcases List.mem_cons.mp hb with rfl | hb'
        · refine ⟨c1, by simp, ?_⟩
          rw [hstart1, pySlice_head? hc12]
        · obtain ⟨cb, hcb, hbs⟩ := IH2 b hb'
          exact ⟨cb, by simp [List.mem_cons.mp hcb], hbs⟩
      · intro _
        cases hsegs' : (segment_slices entries (c2 :: rest)).filterMap segOfSlice with
        | nil => exact absurd hsegs' hne'
        | cons y ys =>
          rw [List.getLast?_cons_cons]
          rw [hsegs'] at IH3
          exact IH3 (by simp)
      · intro c rest' hcr
        have hc : c = c1 := ((List.cons.injEq _ _ _ _ ▸ hcr).1).symm
        subst hc
        show some s1.start = _
        rw [hstart1, pySlice_head? hc12]
      · exact List.pairwise_cons.mpr ⟨hlater, IH5⟩

lemma detect_topic_changes_sorted (entries : List SubtitleEntry) (h : entries ≠ []) :
    List.Pairwise (· < ·) (detect_topic_changes entries) := by
  rw [detect_topic_changes_eq_filter entries h]
  exact List.Pairwise.sublist (List.filter_sublist _) (List.pairwise_lt_range _)

lemma detect_topic_changes_bounded (entries : List SubtitleEntry) (h : entries ≠ []) :
    ∀ c ∈ detect_topic_changes entries, c < entries.length := by
  rw [detect_topic_changes_eq_filter entries h]
  intro c hc
  exact List.mem_range.mp (List.mem_filter.mp hc).1

lemma detect_topic_changes_head (entries : List SubtitleEntry) (h : entries ≠ []) :
    ∃ rest, detect_topic_changes entries = 0 :: rest := by
  rw [detect_topic_changes_eq_filter entries h]
  obtain ⟨n, hn⟩ : ∃ n, entries.length = n + 1 :=
    ⟨entries.length - 1, by have := List.length_pos.mpr h; omega⟩
  rw [hn, List.range_succ_eq_map, List.filter_cons_of_pos (by simp [isCP])]
  exact ⟨_, rfl⟩

/-- **C3** (amended).  For a non-empty transcript whose entries are
well-formed (`start ≤ end`) and non-overlapping in order (each entry ends no
later than the next starts), `SemanticAnalyzer.analyze` produces one segment
per change point; the segments are pairwise non-overlapping and ordered
(each ends no later than any later one starts), the first segment starts at
the first entry's start and the last segment ends at the last entry's end.
Segments need NOT be contiguous: a change point caused by a time gap larger
than 2 s leaves that gap between consecutive segments. -/
theorem C3_segment_partition (entries : List SubtitleEntry) (hne : entries ≠ [])
    (hadj : List.Chain' (fun a b : SubtitleEntry => a.«end» ≤ b.start) entries)
    (hwf : ∀ e ∈ entries, e.start ≤ e.«end») :
    List.Pairwise (fun a b : Segment => a.«end» ≤ b.start) (analyze_segments entries) ∧
    (analyze_segments entries).length = (detect_topic_changes entries).length ∧
    (analyze_segments entries).head?.map Segment.start
      = entries.head?.map SubtitleEntry.start ∧
    (analyze_segments entries).getLast?.map Segment.«end»
      = entries.getLast?.map SubtitleEntry.«end» := by
  obtain ⟨len1, pstart, plast, phead, ppw⟩ :=
    segments_spec entries hadj hwf (detect_topic_changes entries)
      (detect_topic_changes_sorted entries hne)
      (detect_topic_changes_bounded entries hne)
  obtain ⟨rest, hrest⟩ := detect_topic_changes_head entries hne
  refine ⟨ppw, len1, ?_, ?_⟩
  · have := phead 0 rest hrest
    rw [List.head?_eq_getElem? entries]
    exact this
  · have := plast (by rw [hrest]; exact List.cons_ne_nil _ _)
    rw [List.getLast?_eq_getElem? entries]
    exact this

/-- Witness for `C3_segment_partition` at a concrete transcript. -/
theorem C3_segment_partition_witness :
    (([⟨0, 12, "a", 1⟩, ⟨50, 60, "b", 2⟩] : List SubtitleEntry) ≠ [] ∧
      List.Chain' (fun a b : SubtitleEntry => a.«end» ≤ b.start)
        [⟨0, 12, "a", 1⟩, ⟨50, 60, "b", 2⟩] ∧
      ∀ e ∈ ([⟨0, 12, "a", 1⟩, ⟨50, 60, "b", 2⟩] : List SubtitleEntry),
        e.start ≤ e.«end») ∧
    List.Pairwise (fun a b : Segment => a.«end» ≤ b.start)
      (analyze_segments [⟨0, 12, "a", 1⟩, ⟨50, 60, "b", 2⟩]) := by
  have h1 : ([⟨0, 12, "a", 1⟩, ⟨50, 60, "b", 2⟩] : List SubtitleEntry) ≠ [] := by decide
  have h2 : List.Chain' (fun a b : SubtitleEntry => a.«end» ≤ b.start)
      [⟨0, 12, "a", 1⟩, ⟨50, 60, "b", 2⟩] := by
    refine List.chain'_cons.mpr ⟨?_, List.chain'_singleton _⟩
    norm_num
  have h3 : ∀ e ∈ ([⟨0, 12, "a", 1⟩, ⟨50, 60, "b", 2⟩] : List SubtitleEntry),
      e.start ≤ e.«end» := by
    intro e he
    fin_cases he <;> norm_num
  exact ⟨⟨h1, h2, h3⟩,
    (C3_segment_partition [⟨0, 12, "a", 1⟩, ⟨50, 60, "b", 2⟩] h1 h2 h3).1⟩

/-- **C3 counterexample.**  On a transcript with entries `[0,12]` and
`[50,60]` the 38 s gap produces a change point at index 1, and the two
resulting segments are `[0,12]` and `[50,60]`: the second segment's start
(50) differs from the first segment's end (12), so the segments do not form
a contiguous partition of the transcript's time range — the gap is not
covered. -/
theorem C3_contiguity_counterexample :
    ((analyze_segments gapEntries).map (fun s => (s.start, s.«end»)) =
      [(0, 12), (50, 60)]) ∧
    ¬ List.Chain' (fun a b : Segment => a.«end» = b.start) (analyze_segments gapEntries) := by
  have hmarker : hasTransitionMarker (gapEntries.getD 1 default).text = false := by decide
  have hgap : hasLongGap gapEntries 1 = true := by
    unfold hasLongGap
    rw [decide_eq_true_eq]
    show (2 : ℚ) < 50 - 12
    norm_num
  have hraw : change_points_raw gapEntries = [0, 1] := by
    unfold change_points_raw
    have hlen : gapEntries.length - 1 = 1 := rfl
    rw [hlen]
    have hr : List.range' 1 1 = [1] := rfl
    rw [hr]
    simp [change_point_at, hgap]
    decide
  have hdet : detect_topic_changes gapEntries = [0, 1] := by
    unfold detect_topic_changes
    rw [hraw]
    decide
  have hseg : analyze_segments gapEntries =
      [mkSegment ⟨0, 12, "a", 1⟩ [], mkSegment ⟨50, 60, "b", 2⟩ []] := by
    unfold analyze_segments
    rw [hdet]
    rfl
  constructor
  · rw [hseg]
    decide
  · rw [hseg]
    intro hch
    have h12 : (12 : ℚ) = 50 := (List.chain'_cons.mp hch).1
    norm_num at h12

end SemanticAnalyzer

namespace SmartClipper

lemma greedy_filter_sublist :
    ∀ rs kept : List ClipRecommendation, (greedy_filter kept rs).Sublist (kept ++ rs) := by
  intro rs
  induction rs with
  | nil => intro kept; simp [greedy_filter]
  | cons r rs ih =>
    intro kept
    show (if kept.any (fun k => overlaps_more_30 r k) then greedy_filter kept rs
      else greedy_filter (kept ++ [r]) rs).Sublist _
    split_ifs with h
    · exact (ih kept).trans (List.Sublist.append_left (List.sublist_cons_self r rs) kept)
    · have h2 := ih (kept ++ [r])
      rw [List.append_assoc] at h2
      simpa using h2

lemma greedy_filter_pairwise :
    ∀ rs kept : List ClipRecommendation,
      List.Pairwise (fun a b => min a.«end» b.«end» - max a.start b.start ≤ 30) kept →
      List.Pairwise (fun a b => min a.«end» b.«end» - max a.start b.start ≤ 30)
        (greedy_filter kept rs) := by
  intro rs
  induction rs with
  | nil => intro kept h; exact h
  | cons r rs ih =>
    intro kept h
    show List.Pairwise _ (if kept.any (fun k => overlaps_more_30 r k) then
      greedy_filter kept rs else greedy_filter (kept ++ [r]) rs)
    split_ifs with hany
    · exact ih kept h
    · refine ih (kept ++ [r]) ?_
      rw [List.pairwise_append]
      refine ⟨h, List.pairwise_singleton _ _, ?_⟩
      intro a ha b hb
      rw [List.mem_singleton] at hb
      rw [hb]
      have hfa : ¬ (overlaps_more_30 r a = true) := fun hc =>
        hany (List.any_eq_true.mpr ⟨a, ha, hc⟩)
      have hle : ¬ (30 < min r.«end» a.«end» - max r.start a.start) := by
        simpa [overlaps_more_30] using hfa
      rw [min_comm a.«end» r.«end», max_comm a.start r.start]
      exact le_of_not_lt hle

/-- **C1.**  In the final list returned by
`SmartClipper.generate_recommendations` no two kept recommendations overlap
by more than 30 seconds; the list is ranked descending by total score (the
higher-scored of two conflicting candidates is kept, being processed
first), and it is truncated to at most `top_n` entries. -/
theorem C1_final_nonoverlap (template : Option Template)
    (danmaku_peaks : List PeakMoment) (semantic_highlights : List Highlight)
    (top_n : ℕ) :
    List.Pairwise (fun a b : ClipRecommendation =>
        min a.«end» b.«end» - max a.start b.start ≤ 30)
      (generate_recommendations template danmaku_peaks semantic_highlights top_n) ∧
    (generate_recommendations template danmaku_peaks semantic_highlights top_n).length
      ≤ top_n ∧
    List.Sorted (fun a b : ClipRecommendation => b.score ≤ a.score)
      (generate_recommendations template danmaku_peaks semantic_highlights top_n) := by
  refine ⟨?_, ?_, ?_⟩
  · exact List.Pairwise.sublist (List.take_sublist _ _)
      (greedy_filter_pairwise _ [] List.Pairwise.nil)
  · exact List.length_take_le _ _
  · have hsorted : List.Sorted (fun a b : ClipRecommendation => b.score ≤ a.score)
        (List.insertionSort (fun a b : ClipRecommendation => b.score ≤ a.score)
          ((merge_moments danmaku_peaks semantic_highlights).map
            (build_recommendation template))) :=
      List.sorted_insertionSort _ _
    have hsub := greedy_filter_sublist
      (List.insertionSort (fun a b : ClipRecommendation => b.score ≤ a.score)
        ((merge_moments danmaku_peaks semantic_highlights).map
          (build_recommendation template))) []
    rw [List.nil_append] at hsub
    exact List.Pairwise.sublist (List.take_sublist _ _)
      (List.Pairwise.sublist hsub hsorted)

/-- **C4** (amended).  A candidate with no danmaku source receives density
factor 20 (the missing dict reads density 0, which falls into the final
`else 20` step), and a candidate with no semantic source receives semantic
factor 20 (the missing dict reads the default excitement 1, times 20);
otherwise the density factor follows the step table
`≥150→100, ≥100→80, ≥80→60, ≥50→40, else 20` and the semantic factor is
`excitement × 20`, plus 10 capped at 100 when the highlight carries at
least one key quote. -/
theorem C4_factor_scores :
    score_danmaku_density none = 20 ∧
    score_semantic_quality none = 20 ∧
    (∀ m : PeakMoment,
      (150 ≤ m.density → score_danmaku_density (some m) = 100) ∧
      (100 ≤ m.density → m.density < 150 → score_danmaku_density (some m) = 80) ∧
      (80 ≤ m.density → m.density < 100 → score_danmaku_density (some m) = 60) ∧
      (50 ≤ m.density → m.density < 80 → score_danmaku_density (some m) = 40) ∧
      (m.density < 50 → score_danmaku_density (some m) = 20)) ∧
    (∀ (h : Highlight) (e : ℕ), h.excitement_score = some e →
      (h.key_quotes = [] → score_semantic_quality (some h) = e * 20) ∧
      (h.key_quotes ≠ [] → score_semantic_quality (some h) = min 100 (e * 20 + 10))) := by
  refine ⟨rfl, rfl, ?_, ?_⟩
  · intro m
    unfold score_danmaku_density
    refine ⟨?_, ?_, ?_, ?_, ?_⟩ <;> intros <;>
      simp only [Option.map_some', Option.getD_some] <;> split_ifs <;> omega
  · intro h e he
    constructor
    · intro hq
      simp [score_semantic_quality, he, hq]
    · intro hq
      have hq' : h.key_quotes.isEmpty = false := by
        cases hkq : h.key_quotes with
        | nil => exact absurd hkq hq
        | cons x xs => rfl
      simp [score_semantic_quality, he, hq']

/-- Witness for `C4_factor_scores` at concrete inputs. -/
theorem C4_factor_scores_witness :
    (150 ≤ (160 : ℕ) ∧ score_danmaku_density (some ⟨0, 0, 160, 0, []⟩) = 100) ∧
    ((⟨0, 0, some 4, ["q"], []⟩ : Highlight).excitement_score = some 4 ∧
      (⟨0, 0, some 4, ["q"], []⟩ : Highlight).key_quotes ≠ [] ∧
      score_semantic_quality (some ⟨0, 0, some 4, ["q"], []⟩) = min 100 (4 * 20 + 10)) :=
  ⟨⟨by decide, (C4_factor_scores.2.2.1 ⟨0, 0, 160, 0, []⟩).1 (by decide)⟩,
   ⟨rfl, by decide,
    (C4_factor_scores.2.2.2 ⟨0, 0, some 4, ["q"], []⟩ 4 rfl).2 (by decide)⟩⟩

/-- **C4 counterexample.**  A candidate with no danmaku source scores 20
(not 0) on the density factor, and a candidate with no semantic source
scores 20 (not 0) on the semantic factor. -/
theorem C4_no_source_counterexample :
    score_danmaku_density none = 20 ∧ score_danmaku_density none ≠ 0 ∧
    score_semantic_quality none = 20 ∧ score_semantic_quality none ≠ 0 := by
  refine ⟨rfl, by decide, rfl, by decide⟩

/-- **C7** (amended).  With a falsy clip configuration,
`score_duration_fit` uses the tier table: 100 on `[60,180]`, 70 on
`[30,60) ∪ (180,300]`, and 40 elsewhere (it does *not* return 100 on all of
`[60,300]`).  With a configured `[min,max]` it returns 100 inside the
range, `max 0 (100 − 2·(min − d))` below it and
`max 0 (100 − 0.5·(d − max))` above it; missing config keys default to
min 60 and max 300. -/
theorem C7_duration_fit :
    (∀ d : ℚ,
      (60 ≤ d ∧ d ≤ 180 → score_duration_fit none d = 100) ∧
      ((30 ≤ d ∧ d < 60) ∨ (180 < d ∧ d ≤ 300) → score_duration_fit none d = 70) ∧
      (¬(60 ≤ d ∧ d ≤ 180) → ¬((30 ≤ d ∧ d < 60) ∨ (180 < d ∧ d ≤ 300)) →
        score_duration_fit none d = 40)) ∧
    (∀ (cfg : ClipConfig) (mn mx d : ℚ),
      cfg.min_duration = some mn → cfg.max_duration = some mx →
      (mn ≤ d → d ≤ mx → score_duration_fit (some cfg) d = 100) ∧
      (d < mn → score_duration_fit (some cfg) d = max 0 (100 - (mn - d) * 2)) ∧
      (¬(mn ≤ d ∧ d ≤ mx) → ¬(d < mn) →
        score_duration_fit (some cfg) d = max 0 (100 - (d - mx) * (1/2)))) ∧
    (∀ d : ℚ, score_duration_fit (some ⟨none, none⟩) d =
        score_duration_fit (some ⟨some 60, some 300⟩) d) := by
  refine ⟨?_, ?_, ?_⟩
  · intro d
    have hred : score_duration_fit none d =
        (if 60 ≤ d ∧ d ≤ 180 then (100 : ℚ)
         else if (30 ≤ d ∧ d < 60) ∨ (180 < d ∧ d ≤ 300) then 70 else 40) := rfl
    refine ⟨fun h => ?_, fun h => ?_, fun h1 h2 => ?_⟩
    · rw [hred, if_pos h]
    · rw [hred, if_neg ?_, if_pos h]
      rcases h with ⟨h3, h4⟩ | ⟨h3, h4⟩ <;> rintro ⟨h5, h6⟩ <;> linarith
    · rw [hred, if_neg h1, if_neg h2]
  · intro cfg mn mx d hmn hmx
    have hred : score_duration_fit (some cfg) d =
        (if cfg.min_duration.getD 60 ≤ d ∧ d ≤ cfg.max_duration.getD 300 then (100 : ℚ)
         else if d < cfg.min_duration.getD 60 then
           max 0 (100 - (cfg.min_duration.getD 60 - d) * 2)
         else max 0 (100 - (d - cfg.max_duration.getD 300) * (1/2))) := rfl
    rw [hred, hmn, hmx]
    simp only [Option.getD_some]
    refine ⟨?_, ?_, ?_⟩
    · intro h1 h2
      rw [if_pos ⟨h1, h2⟩]
    · intro h1
      rw [if_neg (fun hc => absurd h1 (not_lt.mpr hc.1)), if_pos h1]
    · intro h1 h2
      rw [if_neg h1, if_neg h2]
  · intro d
    rfl

/-- Witness for `C7_duration_fit` at concrete inputs. -/
theorem C7_duration_fit_witness :
    ((60 : ℚ) ≤ 90 ∧ (90 : ℚ) ≤ 180 ∧ score_duration_fit none 90 = 100) ∧
    ((⟨some 60, some 300⟩ : ClipConfig).min_duration = some 60 ∧ (30 : ℚ) < 60 ∧
      score_duration_fit (some ⟨some 60, some 300⟩) 30 = max 0 (100 - (60 - 30) * 2)) := by
  refine ⟨⟨by norm_num, by norm_num, ?_⟩, ⟨rfl, by norm_num, ?_⟩⟩
  · exact (C7_duration_fit.1 90).1 ⟨by norm_num, by norm_num⟩
  · exact ((C7_duration_fit.2.1 ⟨some 60, some 300⟩ 60 300 30 rfl rfl).2.1 (by norm_num))

/-- **C7 counterexample.**  With no clip configuration the duration 200
lies inside the claimed default range `[60, 300]`, yet `score_duration_fit`
returns 70, not 100. -/
theorem C7_default_range_counterexample :
    ((60 : ℚ) ≤ 200 ∧ (200 : ℚ) ≤ 300) ∧
    score_duration_fit none 200 = 70 ∧ score_duration_fit none 200 ≠ 100 := by
  have h70 : score_duration_fit none 200 = 70 := by
    show (if (60 : ℚ) ≤ 200 ∧ (200 : ℚ) ≤ 180 then (100 : ℚ)
      else if ((30 : ℚ) ≤ 200 ∧ (200 : ℚ) < 60) ∨ ((180 : ℚ) < 200 ∧ (200 : ℚ) ≤ 300)
        then 70 else 40) = 70
    rw [if_neg (by norm_num), if_pos (Or.inr ⟨by norm_num, by norm_num⟩)]
  refine ⟨⟨by norm_num, by norm_num⟩, h70, ?_⟩
  rw [h70]
  norm_num

end SmartClipper

namespace ClipAndBurn

lemma find_first_free_some :
    ∀ (tracks : List ℚ) (t : ℚ) (i : ℕ), find_first_free tracks t = some i →
      i < tracks.length ∧ tracks.getD i 0 ≤ t ∧ ∀ j < i, ¬ tracks.getD j 0 ≤ t := by
  intro tracks
  induction tracks with
  | nil => intro t i h; exact absurd h (by simp [find_first_free])
  | cons e rest ih =>
    intro t i h
    show _ ∧ _
    rw [show find_first_free (e :: rest) t =
      (if e ≤ t then some 0 else (find_first_free rest t).map (fun i => i + 1)) from rfl] at h
    split_ifs at h with he
    · obtain rfl : i = 0 := by simpa using h.symm
      refine ⟨by simp, by simpa using he, ?_⟩
      intro j hj
      omega
    · obtain ⟨i', hi', rfl⟩ : ∃ i', find_first_free rest t = some i' ∧ i = i' + 1 := by
        cases hff : find_first_free rest t with
        | none => rw [hff] at h; exact absurd h (by simp)
        | some k =>
          rw [hff] at h
          exact ⟨k, rfl, by simpa using h.symm⟩
      obtain ⟨h1, h2, h3⟩ := ih t i' hi'
      refine ⟨by simpa using h1, by simpa using h2, ?_⟩
      intro j hj
      cases j with
      | zero => simpa using he
      | succ j' =>
        rw [List.getD_cons_succ]
        exact h3 j' (by omega)

lemma find_first_free_none :
    ∀ (tracks : List ℚ) (t : ℚ), find_first_free tracks t = none →
      ∀ j < tracks.length, ¬ tracks.getD j 0 ≤ t := by
  intro tracks
  induction tracks with
  | nil => intro t _ j hj; simp at hj
  | cons e rest ih =>
    intro t h j hj
    rw [show find_first_free (e :: rest) t =
      (if e ≤ t then some 0 else (find_first_free rest t).map (fun i => i + 1)) from rfl] at h
    split_ifs at h with he
    have hrest : find_first_free rest t = none := Option.map_eq_none'.mp h
    cases j with
    | zero => simpa using he
    | succ j' =>
      rw [List.getD_cons_succ]
      exact ih t hrest j' (by simpa using hj)

lemma allocate_length :
    ∀ (cs : List ScrollComment) (tracks : List ℚ),
      (allocate tracks cs).length = cs.length := by
  intro cs
  induction cs with
  | nil => intro _; rfl
  | cons c cs ih => intro tracks; simpa [allocate] using ih _

lemma allocStep_length (tracks : List ℚ) (c : ScrollComment) :
    (allocStep tracks c).1.length = tracks.length := by
  simp [allocStep]

lemma mem_allocate_nonoverflow_lane_lt :
    ∀ (cs : List ScrollComment) (tracks : List ℚ) (b : Assignment),
      b ∈ allocate tracks cs → b.overflow = false → b.lane < tracks.length := by
  intro cs
  induction cs with
  | nil => intro _ b hb; exact absurd hb (by simp [allocate])
  | cons c cs ih =>
    intro tracks b hb hov
    rcases List.mem_cons.mp hb with rfl | hb'
    · have hsome : (find_first_free tracks c.t).isSome = true := by
        simpa [allocStep] using hov
      obtain ⟨i, hi⟩ := Option.isSome_iff_exists.mp hsome
      have hlt := (find_first_free_some tracks c.t i hi).1
      simpa [allocStep, hi] using hlt
    · have := ih (allocStep tracks c).1 b hb' hov
      rwa [allocStep_length] at this

lemma getD_set_self (l : List ℚ) (i : ℕ) (x : ℚ) (h : i < l.length) :
    (l.set i x).getD i 0 = x := by
  rw [List.getD_eq_getElem?_getD, List.getElem?_set_self h]
  rfl

lemma getD_set_ne (l : List ℚ) {i j : ℕ} (x : ℚ) (h : i ≠ j) :
    (l.set i x).getD j 0 = l.getD j 0 := by
  rw [List.getD_eq_getElem?_getD, List.getElem?_set_ne h, ← List.getD_eq_getElem?_getD]

lemma allocStep_fst (tracks : List ℚ) (c : ScrollComment) :
    (allocStep tracks c).1 = tracks.set ((allocStep tracks c).2.lane) (c.t + 8) := rfl

lemma allocStep_t (tracks : List ℚ) (c : ScrollComment) :
    (allocStep tracks c).2.t = c.t := rfl

/-- Key invariant: if lane `j` currently records end time `v`, and every
upcoming comment's interval end `t + 8` is at least `v`, then any upcoming
*non-overflow* assignment to lane `j` happens at a time `≥ v`. -/
lemma allocate_busy_mono :
    ∀ (cs : List ScrollComment) (tracks : List ℚ) (j : ℕ) (v : ℚ),
      List.Pairwise (fun a b : ScrollComment => a.t ≤ b.t) cs →
      j < tracks.length → tracks.getD j 0 = v →
      (∀ c ∈ cs, v ≤ c.t + 8) →
      ∀ b ∈ allocate tracks cs, b.lane = j → b.overflow = false → v ≤ b.t := by
  intro cs
  induction cs with
  | nil => intro _ _ _ _ _ _ _ b hb; exact absurd hb (by simp [allocate])
  | cons c cs ih =>
    intro tracks j v hpw hj hv hlb b hb hlane hov
    rcases List.mem_cons.mp hb with rfl | hb'
    · -- the head assignment itself: non-overflow means lane j was free
      have hsome : (find_first_free tracks c.t).isSome = true := by
        simpa [allocStep] using hov
      obtain ⟨i, hi⟩ := Option.isSome_iff_exists.mp hsome
      have hle := (find_first_free_some tracks c.t i hi).2.1
      have hlj : (allocStep tracks c).2.lane = i := by simp [allocStep, hi]
      rw [hlj] at hlane
      have hvt : v ≤ c.t := by
        rw [← hv, ← hlane]
        exact hle
      rw [allocStep_t]
      exact hvt
    · -- a later assignment
      have hpw' := hpw.of_cons
      have hhd : ∀ c' ∈ cs, c.t ≤ c'.t := fun c' hc' =>
        List.rel_of_pairwise_cons hpw hc'
      have hj' : j < (allocStep tracks c).1.length := by rwa [allocStep_length]
      by_cases hcase : (allocStep tracks c).2.lane = j
      · -- lane j was just re-stamped to c.t + 8
        have hset : (allocStep tracks c).1.getD j 0 = c.t + 8 := by
          rw [allocStep_fst, hcase]
          exact getD_set_self tracks j _ hj
        have hlb' : ∀ c' ∈ cs, c.t + 8 ≤ c'.t + 8 := fun c' hc' => by
          have := hhd c' hc'
          linarith
        have hrec := ih (allocStep tracks c).1 j (c.t + 8) hpw' hj' hset hlb' b hb' hlane hov
        have hvc : v ≤ c.t + 8 := hlb c (by simp)
        linarith
      · have hset : (allocStep tracks c).1.getD j 0 = v := by
          rw [allocStep_fst, getD_set_ne tracks _ hcase]
          exact hv
        exact ih (allocStep tracks c).1 j v hpw' hj' hset
          (fun c' hc' => hlb c' (by simp [hc'])) b hb' hlane hov

lemma allocate_pairwise :
    ∀ (cs : List ScrollComment) (tracks : List ℚ),
      List.Pairwise (fun a b : ScrollComment => a.t ≤ b.t) cs →
      List.Pairwise (fun a b : Assignment =>
        a.lane = b.lane → b.overflow = false → a.t + 8 ≤ b.t)
        (allocate tracks cs) := by
  intro cs
  induction cs with
  | nil => intro _ _; exact List.Pairwise.nil
  | cons c cs ih =>
    intro tracks hpw
    show List.Pairwise _ ((allocStep tracks c).2 :: allocate (allocStep tracks c).1 cs)
    refine List.pairwise_cons.mpr ⟨?_, ih _ hpw.of_cons⟩
    intro b hb hlane hov
    by_cases hlt : (allocStep tracks c).2.lane < tracks.length
    · have hj' : (allocStep tracks c).2.lane < (allocStep tracks c).1.length := by
        rwa [allocStep_length]
      have hset : (allocStep tracks c).1.getD ((allocStep tracks c).2.lane) 0 = c.t + 8 := by
        rw [allocStep_fst]
        exact getD_set_self tracks _ _ hlt
      have hres := allocate_busy_mono cs (allocStep tracks c).1
        ((allocStep tracks c).2.lane) (c.t + 8) hpw.of_cons hj' hset
        (fun c' hc' => by
          have := List.rel_of_pairwise_cons hpw hc'
          linarith)
        b hb hlane.symm hov
      rw [allocStep_t]
      exact hres
    · exfalso
      have hblt := mem_allocate_nonoverflow_lane_lt cs (allocStep tracks c).1 b hb hov
      rw [allocStep_length] at hblt
      rw [← hlane] at hblt
      exact hlt hblt

/-- **C5.**  The allocator picks the first lane in index order whose
`busyUntil` is at most the comment's timestamp, and, for SCROLL comments
processed in ascending timestamp order on the 15 initially-free lanes, any
two comments assigned to the same lane have disjoint `[t, t+8)` display
intervals, except when the later one's assignment was made by the overflow
path (all lanes simultaneously busy). -/
theorem C5_track_allocator (cs : List ScrollComment)
    (hsorted : List.Pairwise (fun a b : ScrollComment => a.t ≤ b.t) cs) :
    (∀ (tracks : List ℚ) (t : ℚ) (r i : ℕ), find_first_free tracks t = some i →
        find_available_track tracks t r = i ∧ i < tracks.length ∧
        tracks.getD i 0 ≤ t ∧ ∀ j < i, ¬ tracks.getD j 0 ≤ t) ∧
    List.Pairwise (fun a b : Assignment =>
        a.lane = b.lane → b.overflow = false → a.t + 8 ≤ b.t)
      (allocate (List.replicate 15 0) cs) := by
  refine ⟨?_, allocate_pairwise cs _ hsorted⟩
  intro tracks t r i hi
  obtain ⟨h1, h2, h3⟩ := find_first_free_some tracks t i hi
  exact ⟨by simp [find_available_track, hi], h1, h2, h3⟩

/-- Witness for `C5_track_allocator` at a concrete comment sequence. -/
theorem C5_track_allocator_witness :
    List.Pairwise (fun a b : ScrollComment => a.t ≤ b.t)
      ([⟨0, 0⟩, ⟨8, 0⟩] : List ScrollComment) ∧
    List.Pairwise (fun a b : Assignment =>
        a.lane = b.lane → b.overflow = false → a.t + 8 ≤ b.t)
      (allocate (List.replicate 15 0) [⟨0, 0⟩, ⟨8, 0⟩]) := by
  have hpw : List.Pairwise (fun a b : ScrollComment => a.t ≤ b.t)
      ([⟨0, 0⟩, ⟨8, 0⟩] : List ScrollComment) := by
    refine List.pairwise_cons.mpr ⟨?_, List.pairwise_singleton _ _⟩
    intro b hb
    fin_cases hb
    norm_num
  exact ⟨hpw, (C5_track_allocator [⟨0, 0⟩, ⟨8, 0⟩] hpw).2⟩

/-- **C9.**  Processing one SCROLL comment whose oracle draw lies in
`0 .. len(tracks) - 1` (randint's contract) assigns a lane inside the lane
array, overwrites exactly that lane's `busyUntil` to `t + 8`, leaves every
other lane unchanged, keeps the lane count, and emits exactly one event per
comment — no SCROLL comment is dropped, the overflow case included. -/
theorem C9_single_lane_update (tracks : List ℚ) (c : ScrollComment)
    (hr : c.r < tracks.length) :
    (allocStep tracks c).2.lane < tracks.length ∧
    (allocStep tracks c).2.t = c.t ∧
    (allocStep tracks c).1.getD ((allocStep tracks c).2.lane) 0 = c.t + 8 ∧
    (∀ j, j ≠ (allocStep tracks c).2.lane →
      (allocStep tracks c).1.getD j 0 = tracks.getD j 0) ∧
    (allocStep tracks c).1.length = tracks.length ∧
    (∀ cs, (allocate tracks (c :: cs)).length = cs.length + 1) := by
  have hlane : (allocStep tracks c).2.lane < tracks.length := by
    cases hff : find_first_free tracks c.t with
    | none => simpa [allocStep, hff] using hr
    | some i =>
      have := (find_first_free_some tracks c.t i hff).1
      simpa [allocStep, hff] using this
  refine ⟨hlane, rfl, ?_, ?_, allocStep_length tracks c, ?_⟩
  · rw [allocStep_fst]
    exact getD_set_self tracks _ _ hlane
  · intro j hj
    rw [allocStep_fst]
    exact getD_set_ne tracks _ (fun h => hj h.symm)
  · intro cs
    show ((allocStep tracks c).2 :: allocate (allocStep tracks c).1 cs).length = cs.length + 1
    rw [List.length_cons, allocate_length]

/-- Witness for `C9_single_lane_update` at a concrete state. -/
theorem C9_single_lane_update_witness :
    (⟨0, 3⟩ : ScrollComment).r < (List.replicate 15 (0 : ℚ)).length ∧
    (allocStep (List.replicate 15 (0 : ℚ)) ⟨0, 3⟩).1.length =
      (List.replicate 15 (0 : ℚ)).length :=
  ⟨by simp, (C9_single_lane_update (List.replicate 15 0) ⟨0, 3⟩ (by simp)).2.2.2.2.1⟩

end ClipAndBurn

/-- **C8** (amended).  The SRT parser skips a malformed block and keeps
every record around it; the danmaku parser skips a record with fewer than 8
fields and continues, but a record with at least 8 fields whose numeric
field conversion fails aborts the loop: the exception propagates to the
function-level handler and every record after the malformed one is
dropped. -/
theorem C8_parser_error_handling :
    (∀ (bs1 bs2 : List (List String)) (bad : List String),
        SemanticAnalyzer.parse_block bad = none →
        SemanticAnalyzer.parse_srt (bs1 ++ bad :: bs2) =
          SemanticAnalyzer.parse_srt (bs1 ++ bs2)) ∧
    (∀ (rs1 rs2 : List DanmakuAnalyzer.RawDanmaku) (r : DanmakuAnalyzer.RawDanmaku),
        r.p.length < 8 →
        DanmakuAnalyzer.parse_danmaku_loop (rs1 ++ r :: rs2) =
          DanmakuAnalyzer.parse_danmaku_loop (rs1 ++ rs2)) ∧
    (∀ (rs1 rs2 : List DanmakuAnalyzer.RawDanmaku) (r : DanmakuAnalyzer.RawDanmaku),
        8 ≤ r.p.length → DanmakuAnalyzer.parse_danmaku_fields r = none →
        DanmakuAnalyzer.parse_danmaku_loop (rs1 ++ r :: rs2) =
          DanmakuAnalyzer.parse_danmaku_loop rs1) := by
  refine ⟨?_, ?_, ?_⟩
  · intro bs1 bs2 bad hbad
    unfold SemanticAnalyzer.parse_srt
    rw [List.filterMap_append, List.filterMap_append, List.filterMap_cons, hbad]
  · intro rs1 rs2 r hr
    induction rs1 with
    | nil =>
      show (if 8 ≤ r.p.length then _ else DanmakuAnalyzer.parse_danmaku_loop rs2) = _
      rw [if_neg (by omega)]
      rfl
    | cons r0 rs1 ih =>
      show (if 8 ≤ r0.p.length then _ else _) = (if 8 ≤ r0.p.length then _ else _)
      split_ifs with h0
      · cases hf : DanmakuAnalyzer.parse_danmaku_fields r0 <;> simp [hf, ih]
      · exact ih
  · intro rs1 rs2 r hr hfail
    induction rs1 with
    | nil =>
      show (if 8 ≤ r.p.length then _ else _) = _
      rw [if_pos hr, hfail]
      rfl
    | cons r0 rs1 ih =>
      show (if 8 ≤ r0.p.length then _ else _) = (if 8 ≤ r0.p.length then _ else _)
      split_ifs with h0
      · cases hf : DanmakuAnalyzer.parse_danmaku_fields r0 <;> simp [hf, ih]
      · exact ih

/-- Witness for `C8_parser_error_handling` at concrete inputs. -/
theorem C8_parser_error_handling_witness :
    (SemanticAnalyzer.parse_block ["x", "y", "z"] = none ∧
      SemanticAnalyzer.parse_srt ([["a"]] ++ ["x", "y", "z"] :: [["b"]]) =
        SemanticAnalyzer.parse_srt ([["a"]] ++ [["b"]])) ∧
    ((⟨["1"], none⟩ : DanmakuAnalyzer.RawDanmaku).p.length < 8 ∧
      DanmakuAnalyzer.parse_danmaku_loop ([badRecord] ++ ⟨["1"], none⟩ :: [goodRecord]) =
        DanmakuAnalyzer.parse_danmaku_loop ([badRecord] ++ [goodRecord])) ∧
    (8 ≤ badRecord.p.length ∧ DanmakuAnalyzer.parse_danmaku_fields badRecord = none ∧
      DanmakuAnalyzer.parse_danmaku_loop ([goodRecord] ++ badRecord :: [goodRecord]) =
        DanmakuAnalyzer.parse_danmaku_loop [goodRecord]) :=
  ⟨⟨by decide, C8_parser_error_handling.1 [["a"]] [["b"]] ["x", "y", "z"] (by decide)⟩,
   ⟨by decide, C8_parser_error_handling.2.1 [badRecord] [goodRecord] ⟨["1"], none⟩ (by decide)⟩,
   ⟨by decide, by decide,
    C8_parser_error_handling.2.2 [goodRecord] [goodRecord] badRecord (by decide) (by decide)⟩⟩

/-- **C8 counterexample.**  The record `badRecord` has the expected 8
fields but a non-numeric timestamp; placed before the well-formed
`goodRecord`, the whole parse returns `[]`: the well-formed record after
the malformed one is lost, refuting "the returned list contains ... all
records that appear after the malformed one".  (Alone, `goodRecord` parses
fine.) -/
theorem C8_danmaku_abort_counterexample :
    badRecord.p.length = 8 ∧
    DanmakuAnalyzer.parse_danmaku_fields badRecord = none ∧
    (DanmakuAnalyzer.parse_danmaku_loop [goodRecord]).map (fun d => d.user) = ["u2"] ∧
    DanmakuAnalyzer.parse_danmaku_xml [badRecord, goodRecord] = [] := by
  refine ⟨by decide, by decide, by decide, by decide⟩

end StreamClipper
